import Mathlib

/-!
# Request routing, language negotiation and micro-cache decisions of `server.js`

A shallow embedding of the Express application assembled in `server.js`:
the language-prefix regular expression, the static mounts, the 301 redirect
routes, the language route (`render`, followed by `cacheMiddleware`) and the
catch-all 302 negotiation route.

JavaScript strings are modelled by `String`; the regular expression engine
works on the list of characters of a string.  All requests are GET requests
(every route of the file is registered with `app.get`).
-/

namespace Server

/-! ## JavaScript regular expressions (the fragment used by `server.js`) -/

/-- Abstract syntax of the regular expressions occurring in `server.js`.
Quantifiers are greedy; `rep p lo hi` is a character class with `{lo,hi}`,
`star p` a character class with `*`, `opt r` is `(r)?`. -/
inductive Re where
  | bol : Re
  | eol : Re
  | ch (c : Char) : Re
  | rep (p : Char → Bool) (lo hi : Nat) : Re
  | star (p : Char → Bool) : Re
  | seq (a b : Re) : Re
  | alt (a b : Re) : Re
  | opt (r : Re) : Re
  | group (i : Nat) (r : Re) : Re

/-- Matcher state: number of characters consumed so far, the remaining input
and the capture groups recorded so far (most recent first). -/
structure MState where
  pos : Nat
  rest : List Char
  caps : List (Nat × List Char)
  deriving DecidableEq, Repr

/-- Greedy bounded repetition of a character class, with backtracking into
the continuation `k`. -/
def repK (p : Char → Bool) : Nat → Nat → MState → (MState → Option MState) → Option MState
  | lo, 0, s, k => if lo = 0 then k s else none
  | lo, hi + 1, s, k =>
    match s.rest with
    | [] => if lo = 0 then k s else none
    | x :: xs =>
      if p x then
        (repK p (lo - 1) hi ⟨s.pos + 1, xs, s.caps⟩ k).orElse
          (fun _ => if lo = 0 then k s else none)
      else if lo = 0 then k s else none

/-- Greedy `*` on a character class, with backtracking into `k`. -/
def starK (p : Char → Bool) : List Char → Nat → List (Nat × List Char) →
    (MState → Option MState) → Option MState
  | [], pos, caps, k => k ⟨pos, [], caps⟩
  | x :: xs, pos, caps, k =>
    if p x then (starK p xs (pos + 1) caps k).orElse (fun _ => k ⟨pos, x :: xs, caps⟩)
    else k ⟨pos, x :: xs, caps⟩

/-- Backtracking matcher in continuation-passing style: `r.m s k` matches `r`
at state `s` and hands the state after the match to `k`; alternatives are
tried in order and the first overall success wins. -/
def Re.m : Re → MState → (MState → Option MState) → Option MState
  | .bol, s, k => if s.pos = 0 then k s else none
  | .eol, s, k =>
    match s.rest with
    | [] => k s
    | _ :: _ => none
  | .ch c, s, k =>
    match s.rest with
    | [] => none
    | x :: xs => if x = c then k ⟨s.pos + 1, xs, s.caps⟩ else none
  | .rep p lo hi, s, k => repK p lo hi s k
  | .star p, s, k => starK p s.rest s.pos s.caps k
  | .seq a b, s, k => a.m s (fun s1 => b.m s1 k)
  | .alt a b, s, k => (a.m s k).orElse (fun _ => b.m s k)
  | .opt r, s, k => (r.m s k).orElse (fun _ => k s)
  | .group i r, s, k =>
    r.m s (fun s1 => k ⟨s1.pos, s1.rest, (i, s.rest.take (s1.pos - s.pos)) :: s1.caps⟩)

/-- Try to match at every start offset, leftmost first (`RegExp.prototype.exec`
without the `g` or `y` flag). -/
def execFrom (r : Re) : Nat → List Char → Option MState
  | pos, [] => r.m ⟨pos, [], []⟩ some
  | pos, x :: xs => (r.m ⟨pos, x :: xs, []⟩ some).orElse (fun _ => execFrom r (pos + 1) xs)

/-- The capture groups of the leftmost match of `r` in `s`, if any. -/
def Re.exec (r : Re) (s : String) : Option (List (Nat × List Char)) :=
  (execFrom r 0 s.toList).map (fun st => st.caps)

/-- Model of `RegExp.prototype.test`. -/
def Re.test (r : Re) (s : String) : Bool :=
  (r.exec s).isSome

/-- Capture group `i` of a match: `none` is JavaScript's `undefined` (the
group did not take part in the match). -/
def capture (caps : List (Nat × List Char)) (i : Nat) : Option String :=
  (caps.lookup i).map String.mk

/-- Character class `[a-z]`. -/
def lower (c : Char) : Bool := decide ('a' ≤ c) && decide (c ≤ 'z')

/-- Character class `[A-Z]`. -/
def upper (c : Char) : Bool := decide ('A' ≤ c) && decide (c ≤ 'Z')

/-- Character class `[a-zA-Z]`. -/
def alpha (c : Char) : Bool := lower c || upper c

/-- The class matched by `.` (no `s` flag): everything but the line
terminators LF, CR, U+2028 and U+2029. -/
def dot (c : Char) : Bool :=
  !(c == '\n' || c == '\r' || c == Char.ofNat 0x2028 || c == Char.ofNat 0x2029)

/-- The pattern
`/^\/([a-z]{2,3}|[a-z]{2,3}-[a-zA-Z]{4}|[a-z]{2,3}-[A-Z]{2,3})(\/.*)?$/`. -/
def languageRegex : Re :=
  .seq .bol (.seq (.ch '/') (.seq
    (.group 1 (.alt (.rep lower 2 3)
      (.alt (.seq (.rep lower 2 3) (.seq (.ch '-') (.rep alpha 4 4)))
            (.seq (.rep lower 2 3) (.seq (.ch '-') (.rep upper 2 3))))))
    (.seq (.opt (.group 2 (.seq (.ch '/') (.star dot)))) .eol)))

/-- The pattern `/^\/store/` used by `render`. -/
def storeRegex : Re :=
  .seq .bol (.seq (.ch '/') (.seq (.ch 's') (.seq (.ch 't') (.seq (.ch 'o')
    (.seq (.ch 'r') (.ch 'e'))))))

/-! ## JavaScript values -/

/-- Truthiness of a value that is either a string or one of the falsy values
`undefined` / `false` (modelled by `none`): the empty string is falsy. -/
def truthy : Option String → Bool
  | some s => !(s == "")
  | none => false

/-- String conversion as done by template literals, `+` and `RegExp.test`
(a missing value prints as `undefined`). -/
def jsString : Option String → String
  | some s => s
  | none => "undefined"

/-- The operator `a || b`. -/
def jsOr (a b : Option String) : Option String :=
  if truthy a then a else b

/-- Model of `String.prototype.includes` on character lists. -/
def includes : List Char → List Char → Bool
  | [], sub => sub.isPrefixOf []
  | c :: cs, sub => sub.isPrefixOf (c :: cs) || includes cs sub

/-! ## Requests, responses and server state -/

/-- Parsed cookies of a request (`req.cookies`): the value of the cookie
`currentLanguage` is a string, or absent. -/
structure Cookies where
  currentLanguage : Option String

/-- An incoming GET request as the handlers see it.  `path` is the pathname
the router matches on, `params` are `req.params[0]` and `req.params[1]`,
`acceptsLanguages` is `req.acceptsLanguages` (`none` for `false`), `fresh`
is `req.fresh` and `time` the arrival time in milliseconds. -/
structure Request where
  path : String
  originalUrl : String
  url : String
  hostname : String
  cookies : Cookies
  acceptsLanguages : List String → Option String
  fresh : Bool
  time : Nat
  params : Option String × Option String := (none, none)

/-- An error passed by the renderer to its callback: `url` is `err.url`,
`code` is `err.code` when it is a number. -/
structure RenderError where
  url : Option String
  code : Option Int
  deriving DecidableEq, Repr

/-- Body of a response. -/
inductive Body where
  | empty : Body
  | text (s : String) : Body
  | redirectNotice : Body
  | diagnostic (err : RenderError) : Body
  deriving DecidableEq, Repr

/-- A cookie set with `res.cookie(name, value, { maxAge })`. -/
structure Cookie where
  name : String
  value : String
  maxAge : Nat
  deriving DecidableEq, Repr

/-- The response under construction. -/
structure Res where
  statusCode : Nat
  headers : List (String × String)
  cookies : List Cookie
  body : Body
  deriving DecidableEq, Repr

/-- A fresh response object. -/
def Res.init : Res := ⟨200, [], [], .empty⟩

/-- Model of `res.setHeader`. -/
def Res.setHeader (res : Res) (name value : String) : Res :=
  { res with headers := (name, value) :: res.headers.filter (fun h => !(h.1 == name)) }

/-- Model of `res.cookie`. -/
def Res.cookie (res : Res) (name value : String) (maxAge : Nat) : Res :=
  { res with cookies := ⟨name, value, maxAge⟩ :: res.cookies }

/-- Model of `res.status`. -/
def Res.status (res : Res) (code : Nat) : Res :=
  { res with statusCode := code }

/-- Model of `res.end` / `res.send` with a body. -/
def Res.send (res : Res) (b : Body) : Res :=
  { res with body := b }

/-- Model of `res.redirect(status, url)`: the `Location` header carries the
target (before percent-encoding). -/
def Res.redirect (res : Res) (status : Nat) (url : String) : Res :=
  ((res.setHeader "Location" url).status status).send .redirectNotice

/-- The redirect target of a response, if any. -/
def Res.location (res : Res) : Option String :=
  res.headers.lookup "Location"

/-- The render context handed to `renderer.renderToString`. -/
structure Context where
  title : String
  hostname : String
  url : String
  lang : Option String
  hreflangs : String
  deriving DecidableEq, Repr

/-- An entry of the micro-cache. -/
structure CacheEntry where
  key : String
  body : Body
  expires : Nat
  deriving DecidableEq, Repr

/-- Server state that outlives a request: the contexts handed to the
renderer so far (latest first) and the content of the micro-cache. -/
structure World where
  renderLog : List Context
  microCache : List CacheEntry
  deriving DecidableEq, Repr

/-- What `server.js` reads from its environment and its `require`d data:
the mode flags, the language catalog, the redirect table (`301.json`), the
bundle renderer, and `earlier`, the answer (if any) of the middleware and
routes registered before the redirect routes (favicon, static mounts,
`/releases/:release`, `/sitemap.xml`, the translation API). -/
structure Env where
  isProd : Bool
  useMicroCache : Bool
  serverInfo : String
  startTime : String
  availableLanguages : List String
  redirects : List (String × String)
  renderer : Context → Except RenderError String
  earlier : Request → Option Res

/-- An Express handler `(req, res, next)`, with the server state threaded
through; `next` continues with the following handler or route. -/
abbrev Handler := Request → Res → World → (Res → World → Res × World) → Res × World

/-! ## Static mounts -/

/-- Options handed to `express.static`. -/
structure StaticOptions where
  root : String
  maxAge : Nat
  deriving DecidableEq, Repr

/-- The function `serve`: `cache` is `none` when the argument is omitted. -/
def serve (isProd : Bool) (path : String) (cache : Option Bool) : StaticOptions :=
  { root := path
    maxAge := if cache.getD false && isProd then 1000 * 60 * 60 * 24 * 30 else 0 }

/-- The four `app.use(prefix, serve(...))` mounts, in registration order. -/
def staticMounts (isProd : Bool) : List (String × StaticOptions) :=
  [ ("/", serve isProd "./src/public" (some true)),
    ("/dist", serve isProd "./dist" (some true)),
    ("/releases", serve isProd "./src/releases" none),
    ("/themes", serve isProd "./src/themes" none) ]

/-! ## Micro-cache -/

/-- The predicate `isStore`. -/
def isStore (req : Request) : Bool :=
  truthy req.params.2 && includes (jsString req.params.2).toList "store".toList

/-- The key function given to `microcache.cacheSeconds`:
`useMicroCache && !isStore(req) && req.originalUrl`; `none` is `false`. -/
def cacheKey (env : Env) (req : Request) : Option String :=
  if env.useMicroCache && !isStore req then some req.originalUrl else none

/-- Modelled from the spec: the middleware built by `microcache.cacheSeconds`
of the `route-cache` library, which is not part of the sources.  A falsy key
passes the request on; a live entry for the key answers the request; on a miss
the following handlers run and their body is stored for `ttl` seconds. -/
def cacheSeconds (ttl : Nat) (keyFn : Request → Option String) : Handler :=
  fun req res w next =>
    if truthy (keyFn req) then
      match w.microCache.find? (fun e => e.key == jsString (keyFn req) && decide (req.time < e.expires)) with
      | some e => (res.send e.body, w)
      | none =>
        let out := next res w
        (out.1, { out.2 with
          microCache := ⟨jsString (keyFn req), out.1.body, req.time + ttl * 1000⟩ :: out.2.microCache })
    else next res w

/-- The handler `cacheMiddleware`. -/
def cacheMiddleware (env : Env) : Handler :=
  cacheSeconds (10 * 60) (cacheKey env)

/-! ## Rendering -/

/-- Modelled from the spec: the diagnostic page handler (`ouchInstance`, from
the `ouch` library, which is not part of the sources) answers HTTP 500 with
a page describing the error. -/
def ouchHandleException (err : RenderError) (res : Res) : Res :=
  (res.status 500).send (.diagnostic err)

/-- The closure `handleError` of `render`. -/
def handleError (res : Res) (err : RenderError) : Res :=
  if truthy err.url then res.redirect 302 (jsString err.url)
  else if err.code = some 404 then (res.status 404).send (.text "404 | Page Not Found")
  else ouchHandleException err res

/-- The `hreflangs` field of the render context. -/
def hreflangs (availableLanguages : List String) (hostname : String)
    (params : Option String × Option String) : String :=
  availableLanguages.foldl (fun acc lang =>
    acc ++ ("<link rel=\"alternate\" hreflang=\"" ++ lang ++ "\" href=\"https://" ++ hostname
      ++ "/" ++ lang ++ jsString params.2 ++ "\" />")) ""

/-- The render context built by `render`. -/
def mkContext (env : Env) (req : Request) : Context :=
  { title := "Vuetify"
    hostname := req.hostname
    url := req.url
    lang := req.params.1
    hreflangs := hreflangs env.availableLanguages req.hostname req.params }

/-- The call `renderer.renderToString(context, callback)` at the end of
`render`. -/
def renderToString (env : Env) (req : Request) (res : Res) (w : World) : Res × World :=
  let w1 := { w with renderLog := mkContext env req :: w.renderLog }
  match env.renderer (mkContext env req) with
  | .error err => (handleError res err, w1)
  | .ok html => (res.send (.text html), w1)

/-- The handler `render`.  It never calls `next`. -/
def render (env : Env) : Handler :=
  fun req res w _ =>
    let res1 := ((res.setHeader "Content-Type" "text/html").setHeader "Server" env.serverInfo).cookie
      "currentLanguage" (jsString req.params.1) (1000 * 60 * 60 * 24 * 7)
    if !storeRegex.test (jsString req.params.2) then
      let res2 := (res1.setHeader "Last-Modified" env.startTime).setHeader
        "Cache-Control" "public, must-revalidate"
      if req.fresh then ((res2.status 304).send .empty, w)
      else renderToString env req res2 w
    else renderToString env req res1 w

/-! ## Routes -/

/-- The handler of the catch-all route `app.get('*', ...)`. -/
def catchAll (env : Env) : Handler :=
  fun req res w _ =>
    let lang := jsOr req.cookies.currentLanguage
      (jsOr (req.acceptsLanguages env.availableLanguages) (some "en"))
    let lang1 := if !languageRegex.test ("/" ++ jsString lang) then some "en" else lang
    (res.redirect 302 ("/" ++ jsString lang1 ++ req.originalUrl), w)

/-- A route: `route req` gives the route parameters when the path of the
request matches, and the handlers run in order. -/
structure Layer where
  route : Request → Option (Option String × Option String)
  handlers : List Handler

/-- Run the handlers of a route in order; `done` is what `next()` of the last
handler continues with. -/
def runHandlers : List Handler → Request → (Res → World → Res × World) →
    Res → World → Res × World
  | [], _, done, res, w => done res w
  | h :: hs, req, done, res, w => h req res w (fun r1 w1 => runHandlers hs req done r1 w1)

/-- Run the router stack: the first matching route handles the request and
`next()` of its last handler continues with the following routes.  A request
no route answers gets the default 404. -/
def runStack : List Layer → Request → Res → World → Res × World
  | [], _, res, w => ((res.status 404).send (.text "Not Found"), w)
  | l :: ls, req, res, w =>
    match l.route req with
    | some ps =>
      runHandlers l.handlers { req with params := ps }
        (fun r1 w1 => runStack ls req r1 w1) res w
    | none => runStack ls req res w

/-- Modelled from the spec: a route registered with a string path matches by
exact string comparison with the request path (the matching itself is done
by Express, which is not part of the sources). -/
def pathRoute (k : String) (req : Request) : Option (Option String × Option String) :=
  if req.path = k then some (none, none) else none

/-- The routes registered by
`Object.keys(redirects).forEach(k => app.get(k, ...))`. -/
def redirectLayers (env : Env) : List Layer :=
  env.redirects.map (fun kv =>
    { route := pathRoute kv.1
      handlers := [fun _ res w _ => (res.redirect 301 kv.2, w)] })

/-- The route `app.get(languageRegex, isProd ? render : ..., cacheMiddleware)`.
The route parameters are the two capture groups of the match (Express also
percent-decodes them, which the model leaves out).  In development the call
of `render` waits for `readyPromise`; the model gives the response once the
promise has resolved. -/
def languageLayer (env : Env) : Layer :=
  { route := fun req =>
      (languageRegex.exec req.path).map (fun caps => (capture caps 1, capture caps 2))
    handlers :=
      [ if env.isProd then render env else (fun req res w next => render env req res w next),
        cacheMiddleware env ] }

/-- The route `app.get('*', ...)`. -/
def catchAllLayer (env : Env) : Layer :=
  { route := fun req => some (some req.path, none)
    handlers := [catchAll env] }

/-- The routes registered from the redirect loop on, in registration
order. -/
def stack (env : Env) : List Layer :=
  redirectLayers env ++ [languageLayer env, catchAllLayer env]

/-- The application: the response to a request and the server state after
it.  The middleware and routes registered before the redirect loop come
first; a request they do not answer goes through the router stack. -/
def app (env : Env) (req : Request) (w : World) : Res × World :=
  match env.earlier req with
  | some r => (r, w)
  | none => runStack (stack env) req Res.init w

/-! ## Declarative reading of the patterns -/

/-- The matches of a pattern as a predicate transformer: `r.reach s Q` holds
when `r` can match at state `s` and end in a state satisfying `Q`. -/
def Re.reach : Re → MState → (MState → Prop) → Prop
  | .bol, s, Q => s.pos = 0 ∧ Q s
  | .eol, s, Q => s.rest = [] ∧ Q s
  | .ch c, s, Q => ∃ xs, s.rest = c :: xs ∧ Q ⟨s.pos + 1, xs, s.caps⟩
  | .rep p lo hi, s, Q =>
    ∃ n, lo ≤ n ∧ n ≤ hi ∧ n ≤ s.rest.length ∧ (∀ c ∈ s.rest.take n, p c = true) ∧
      Q ⟨s.pos + n, s.rest.drop n, s.caps⟩
  | .star p, s, Q =>
    ∃ n, n ≤ s.rest.length ∧ (∀ c ∈ s.rest.take n, p c = true) ∧
      Q ⟨s.pos + n, s.rest.drop n, s.caps⟩
  | .seq a b, s, Q => a.reach s (fun s1 => b.reach s1 Q)
  | .alt a b, s, Q => a.reach s Q ∨ b.reach s Q
  | .opt r, s, Q => r.reach s Q ∨ Q s
  | .group i r, s, Q =>
    r.reach s (fun s1 => Q ⟨s1.pos, s1.rest, (i, s.rest.take (s1.pos - s.pos)) :: s1.caps⟩)

/-- A language code of the grammar: two or three lower-case letters,
optionally followed by `-` and either four letters or two or three upper-case
letters. -/
def LangCode (L : List Char) : Prop :=
  (2 ≤ L.length ∧ L.length ≤ 3 ∧ ∀ c ∈ L, lower c = true) ∨
  (∃ a b, L = a ++ '-' :: b ∧ 2 ≤ a.length ∧ a.length ≤ 3 ∧ (∀ c ∈ a, lower c = true) ∧
    b.length = 4 ∧ ∀ c ∈ b, alpha c = true) ∨
  (∃ a b, L = a ++ '-' :: b ∧ 2 ≤ a.length ∧ a.length ≤ 3 ∧ (∀ c ∈ a, lower c = true) ∧
    2 ≤ b.length ∧ b.length ≤ 3 ∧ ∀ c ∈ b, upper c = true)

/-- A remainder path of the grammar: nothing, or `/` followed by characters
other than line terminators. -/
def Remainder (t : List Char) : Prop :=
  t = [] ∨ ∃ u, t = '/' :: u ∧ ∀ c ∈ u, dot c = true

/-! ## Auxiliary definitions used in the statements -/

/-- The request with the parameters bound by the language route. -/
def withParams (req : Request) (caps : List (Nat × List Char)) : Request :=
  { req with params := (capture caps 1, capture caps 2) }

/-- A sample environment: production mode, micro-cache enabled, catalog
`en`, `fr`, one redirect, nothing answered by the earlier middleware. -/
def sampleEnv : Env :=
  { isProd := true
    useMicroCache := true
    serverInfo := "express/4 vue-server-renderer/2"
    startTime := "Thu, 01 Jan 2026 00:00:00 GMT"
    availableLanguages := ["en", "fr"]
    redirects := [("/en/old", "/en/new")]
    renderer := fun c => .ok ("<html>" ++ c.url ++ "</html>")
    earlier := fun _ => none }

/-- A sample request for `path` with the given language cookie and `fresh`
flag; the client accepts French. -/
def sampleReq (path : String) (cookie : Option String) (fresh : Bool) : Request :=
  { path := path
    originalUrl := path
    url := path
    hostname := "example.com"
    cookies := ⟨cookie⟩
    acceptsLanguages := fun ls => if ls.contains "fr" then some "fr" else none
    fresh := fresh
    time := 0 }

/-- The empty server state. -/
def emptyWorld : World := ⟨[], []⟩

/-- The same request served twice in a row: the responses and states after
the first and after the second request. -/
def serveTwice (env : Env) (req : Request) (w : World) : (Res × World) × (Res × World) :=
  (app env req w, app env req (app env req w).2)

/-! ## Facts about the matcher -/

theorem orElse_eq_some {α : Type} {a : Option α} {f : Unit → Option α} {out : α}
    (h : a.orElse f = some out) : a = some out ∨ f () = some out := by
  cases a with
  | none => right; simpa [Option.orElse] using h
  | some v => left; simpa [Option.orElse] using h

theorem repK_sound (p : Char → Bool) (k : MState → Option MState) (out : MState) :
    ∀ (hi lo : Nat) (s : MState), repK p lo hi s k = some out →
      ∃ n, lo ≤ n ∧ n ≤ hi ∧ n ≤ s.rest.length ∧ (∀ c ∈ s.rest.take n, p c = true) ∧
        k ⟨s.pos + n, s.rest.drop n, s.caps⟩ = some out := by
  intro hi
  induction hi with
  | zero =>
    intro lo s h
    simp only [repK] at h
    by_cases hlo : lo = 0
    · simp only [hlo, if_true] at h
      exact ⟨0, by omega, by omega, by omega, by simp, by simpa using h⟩
    · simp [hlo] at h
  | succ hi ih =>
    intro lo s h
    obtain ⟨pos, rest, caps⟩ := s
    have base : (if lo = 0 then k ⟨pos, rest, caps⟩ else none) = some out →
        ∃ n, lo ≤ n ∧ n ≤ hi + 1 ∧ n ≤ rest.length ∧ (∀ c ∈ rest.take n, p c = true) ∧
          k ⟨pos + n, rest.drop n, caps⟩ = some out := by
      intro h0
      by_cases hlo : lo = 0
      · simp only [hlo, if_true] at h0
        exact ⟨0, by omega, by omega, by omega, by simp, by simpa using h0⟩
      · simp [hlo] at h0
    cases rest with
    | nil =>
      simp only [repK] at h
      exact base h
    | cons x xs =>
      simp only [repK] at h
      by_cases hp : p x = true
      · simp only [hp, if_true] at h
        rcases orElse_eq_some h with h1 | h1
        · obtain ⟨n, g1, g2, g3, g4, g5⟩ := ih _ _ h1
          refine ⟨n + 1, by omega, by omega, by simpa using g3, ?_, ?_⟩
          · intro c hc
            simp only [List.take_succ_cons, List.mem_cons] at hc
            rcases hc with rfl | hc
            · exact hp
            · exact g4 c hc
          · have e : pos + 1 + n = pos + (n + 1) := by omega
            simpa [e] using g5
        · exact base h1
      · simp only [hp] at h
        exact base (by simpa using h)

theorem starK_sound (p : Char → Bool) (k : MState → Option MState) (out : MState)
    (caps : List (Nat × List Char)) :
    ∀ (l : List Char) (pos : Nat), starK p l pos caps k = some out →
      ∃ n, n ≤ l.length ∧ (∀ c ∈ l.take n, p c = true) ∧
        k ⟨pos + n, l.drop n, caps⟩ = some out := by
  intro l
  induction l with
  | nil =>
    intro pos h
    simp only [starK] at h
    exact ⟨0, by simp, by simp, by simpa using h⟩
  | cons x xs ih =>
    intro pos h
    simp only [starK] at h
    by_cases hp : p x = true
    · simp only [hp, if_true] at h
      rcases orElse_eq_some h with h1 | h1
      · obtain ⟨n, g1, g2, g3⟩ := ih _ h1
        refine ⟨n + 1, by simpa using g1, ?_, ?_⟩
        · intro c hc
          simp only [List.take_succ_cons, List.mem_cons] at hc
          rcases hc with rfl | hc
          · exact hp
          · exact g2 c hc
        · have e : pos + 1 + n = pos + (n + 1) := by omega
          simpa [e] using g3
      · exact ⟨0, by simp, by simp, by simpa using h1⟩
    · simp only [hp] at h
      exact ⟨0, by simp, by simp, by simpa using h⟩

theorem reach_mono (r : Re) :
    ∀ (s : MState) (Q Q1 : MState → Prop), (∀ st, Q st → Q1 st) → r.reach s Q → r.reach s Q1 := by
  induction r with
  | bol => intro s Q Q1 hq h; exact ⟨h.1, hq _ h.2⟩
  | eol => intro s Q Q1 hq h; exact ⟨h.1, hq _ h.2⟩
  | ch c =>
    intro s Q Q1 hq h
    obtain ⟨xs, h1, h2⟩ := h
    exact ⟨xs, h1, hq _ h2⟩
  | rep p lo hi =>
    intro s Q Q1 hq h
    obtain ⟨n, h1, h2, h3, h4, h5⟩ := h
    exact ⟨n, h1, h2, h3, h4, hq _ h5⟩
  | star p =>
    intro s Q Q1 hq h
    obtain ⟨n, h1, h2, h3⟩ := h
    exact ⟨n, h1, h2, hq _ h3⟩
  | seq a b iha ihb =>
    intro s Q Q1 hq h
    exact iha s _ _ (fun st hst => ihb st Q Q1 hq hst) h
  | alt a b iha ihb =>
    intro s Q Q1 hq h
    rcases h with h | h
    · exact Or.inl (iha s Q Q1 hq h)
    · exact Or.inr (ihb s Q Q1 hq h)
  | opt r ih =>
    intro s Q Q1 hq h
    rcases h with h | h
    · exact Or.inl (ih s Q Q1 hq h)
    · exact Or.inr (hq _ h)
  | group i r ih =>
    intro s Q Q1 hq h
    exact ih s _ _ (fun st hst => hq _ hst) h

theorem m_sound (r : Re) (out : MState) :
    ∀ (s : MState) (k : MState → Option MState),
      r.m s k = some out → r.reach s (fun s1 => k s1 = some out) := by
  induction r with
  | bol =>
    intro s k h
    by_cases h0 : s.pos = 0
    · simpa [Re.m, Re.reach, h0] using h
    · simp [Re.m, h0] at h
  | eol =>
    intro s k h
    obtain ⟨pos, rest, caps⟩ := s
    cases rest with
    | nil => simpa [Re.m, Re.reach] using h
    | cons x xs => simp [Re.m] at h
  | ch c =>
    intro s k h
    obtain ⟨pos, rest, caps⟩ := s
    cases rest with
    | nil => simp [Re.m] at h
    | cons x xs =>
      by_cases h0 : x = c
      · simpa [Re.m, Re.reach, h0] using h
      · simp [Re.m, h0] at h
  | rep p lo hi =>
    intro s k h
    exact repK_sound p k out hi lo s h
  | star p =>
    intro s k h
    exact starK_sound p k out s.caps s.rest s.pos h
  | seq a b iha ihb =>
    intro s k h
    simp only [Re.m] at h
    exact reach_mono a s _ _ (fun st hst => ihb st k hst) (iha s _ h)
  | alt a b iha ihb =>
    intro s k h
    simp only [Re.m] at h
    rcases orElse_eq_some h with h1 | h1
    · exact Or.inl (iha s k h1)
    · exact Or.inr (ihb s k h1)
  | opt r ih =>
    intro s k h
    simp only [Re.m] at h
    rcases orElse_eq_some h with h1 | h1
    · exact Or.inl (ih s k h1)
    · exact Or.inr h1
  | group i r ih =>
    intro s k h
    simp only [Re.m] at h
    exact ih s _ h

theorem execFrom_bol (r : Re) : ∀ (l : List Char) (pos : Nat),
    execFrom (.seq .bol r) (pos + 1) l = none := by
  intro l
  induction l with
  | nil => intro pos; simp [execFrom, Re.m]
  | cons x xs ih => intro pos; simp [execFrom, Re.m, ih, Option.orElse]

theorem execFrom_bol_zero (r : Re) (l : List Char) :
    execFrom (.seq .bol r) 0 l = r.m ⟨0, l, []⟩ some := by
  cases l with
  | nil => simp [execFrom, Re.m]
  | cons x xs =>
    simp only [execFrom, execFrom_bol, Re.m]
    cases r.m ⟨0, x :: xs, []⟩ some <;> simp [Option.orElse]

theorem tail_caps (p : Nat) (l : List Char) (c1 : Nat × List Char) (st : MState)
    (h : (∃ ys, l = '/' :: ys ∧ ∃ m ≤ ys.length, (∀ c ∈ List.take m ys, dot c = true) ∧
        List.drop m ys = [] ∧
          (⟨p + 1 + m, List.drop m ys, [(2, List.take (p + 1 + m - p) l), c1]⟩ : MState) = st) ∨
      (l = [] ∧ (⟨p, l, [c1]⟩ : MState) = st)) :
    Remainder l ∧ ((l = [] ∧ st.caps = [c1]) ∨ (l ≠ [] ∧ st.caps = [(2, l), c1])) := by
  rcases h with ⟨ys, rfl, m, hm, hall, hdrop, rfl⟩ | ⟨rfl, rfl⟩
  · have hlen : ys.length ≤ m := by simpa using hdrop
    have hm2 : m = ys.length := by omega
    subst hm2
    have e : p + 1 + ys.length - p = ys.length + 1 := by omega
    refine ⟨Or.inr ⟨ys, rfl, by simpa using hall⟩, Or.inr ⟨by simp, ?_⟩⟩
    simp [e]
  · exact ⟨Or.inl rfl, Or.inl ⟨rfl, rfl⟩⟩

theorem languageRegex_exec_sound (s : String) (caps : List (Nat × List Char))
    (h : languageRegex.exec s = some caps) :
    ∃ L t, s.toList = '/' :: (L ++ t) ∧ LangCode L ∧ Remainder t ∧
      ((t = [] ∧ caps = [(1, L)]) ∨ (t ≠ [] ∧ caps = [(2, t), (1, L)])) := by
  unfold languageRegex at h
  simp only [Re.exec, Option.map_eq_some', execFrom_bol_zero] at h
  obtain ⟨st, hst, rfl⟩ := h
  have h1 := m_sound _ st _ _ hst
  simp only [Re.reach, Option.some.injEq] at h1
  obtain ⟨xs, hs, hA | hB | hC⟩ := h1
  · obtain ⟨n, a1, a2, a3, a4, ht⟩ := hA
    have hT := tail_caps _ _ _ _ ht
    have e : 0 + 1 + n - (0 + 1) = n := by omega
    rw [e] at hT
    refine ⟨xs.take n, xs.drop n, by rw [List.take_append_drop]; exact hs, Or.inl ?_, hT.1, hT.2⟩
    exact ⟨by rw [List.length_take]; omega, by rw [List.length_take]; omega, a4⟩
  · obtain ⟨n, a1, a2, a3, a4, ys, hd, m, b1, b2, b3, b4, ht⟩ := hB
    have hT := tail_caps _ _ _ _ ht
    have e : 0 + 1 + n + 1 + m - (0 + 1) = n + (m + 1) := by omega
    rw [e, List.take_add, hd, List.take_succ_cons] at hT
    refine ⟨xs.take n ++ '-' :: ys.take m, ys.drop m, ?_, Or.inr (Or.inl ?_), hT.1, hT.2⟩
    · rw [hs, List.append_assoc, List.cons_append, List.take_append_drop, ← hd,
        List.take_append_drop]
    · exact ⟨xs.take n, ys.take m, rfl, by rw [List.length_take]; omega,
        by rw [List.length_take]; omega, a4, by rw [List.length_take]; omega, b4⟩
  · obtain ⟨n, a1, a2, a3, a4, ys, hd, m, b1, b2, b3, b4, ht⟩ := hC
    have hT := tail_caps _ _ _ _ ht
    have e : 0 + 1 + n + 1 + m - (0 + 1) = n + (m + 1) := by omega
    rw [e, List.take_add, hd, List.take_succ_cons] at hT
    refine ⟨xs.take n ++ '-' :: ys.take m, ys.drop m, ?_, Or.inr (Or.inr ?_), hT.1, hT.2⟩
    · rw [hs, List.append_assoc, List.cons_append, List.take_append_drop, ← hd,
        List.take_append_drop]
    · exact ⟨xs.take n, ys.take m, rfl, by rw [List.length_take]; omega,
        by rw [List.length_take]; omega, a4, by rw [List.length_take]; omega,
        by rw [List.length_take]; omega, b4⟩

theorem location_redirect (res : Res) (status : Nat) (url : String) :
    (res.redirect status url).location = some url := by
  simp [Res.redirect, Res.location, Res.send, Res.status, Res.setHeader, List.lookup]

theorem runStack_redirects (kvs : List (String × String)) (rest : List Layer)
    (req : Request) (res : Res) (w : World) :
    runStack (kvs.map (fun kv =>
        ({ route := pathRoute kv.1
           handlers := [fun _ res w _ => (res.redirect 301 kv.2, w)] } : Layer)) ++ rest)
      req res w =
    match kvs.lookup req.path with
    | some t => (res.redirect 301 t, w)
    | none => runStack rest req res w := by
  induction kvs with
  | nil => simp [List.lookup]
  | cons kv kvs ih =>
    obtain ⟨k, v⟩ := kv
    by_cases h : req.path = k
    · simp [runStack, pathRoute, h, runHandlers, List.lookup]
    · have hb : (req.path == k) = false := by simpa using h
      simp only [List.map_cons, List.cons_append, runStack, pathRoute, h, if_false, List.lookup,
        hb]
      exact ih

theorem stack_eq (env : Env) (req : Request) (w : World) :
    runStack (stack env) req Res.init w =
      match env.redirects.lookup req.path with
      | some t => (Res.init.redirect 301 t, w)
      | none =>
        match languageRegex.exec req.path with
        | some caps => render env (withParams req caps) Res.init w (fun r1 w1 => (r1, w1))
        | none =>
          catchAll env { req with params := (some req.path, none) } Res.init w
            (fun r1 w1 => (r1, w1)) := by
  unfold stack
  simp only [redirectLayers, runStack_redirects]
  cases hl : env.redirects.lookup req.path with
  | some t => rfl
  | none =>
    simp only [runStack, languageLayer, catchAllLayer, runHandlers]
    cases hx : languageRegex.exec req.path with
    | some caps =>
      simp only [Option.map_some']
      cases env.isProd <;> rfl
    | none =>
      simp only [Option.map_none']
      rfl

theorem app_eq (env : Env) (req : Request) (w : World) :
    app env req w =
      match env.earlier req with
      | some r => (r, w)
      | none =>
        match env.redirects.lookup req.path with
        | some t => (Res.init.redirect 301 t, w)
        | none =>
          match languageRegex.exec req.path with
          | some caps => render env (withParams req caps) Res.init w (fun r1 w1 => (r1, w1))
          | none =>
            catchAll env { req with params := (some req.path, none) } Res.init w
              (fun r1 w1 => (r1, w1)) := by
  unfold app
  rw [stack_eq]

theorem exec_captures (s : String) (caps : List (Nat × List Char))
    (h : languageRegex.exec s = some caps) :
    ∃ L t, s.toList = '/' :: (L ++ t) ∧ LangCode L ∧ Remainder t ∧
      capture caps 1 = some (String.mk L) ∧
      capture caps 2 = if t = [] then none else some (String.mk t) := by
  obtain ⟨L, t, hs, hL, ht, hc⟩ := languageRegex_exec_sound s caps h
  refine ⟨L, t, hs, hL, ht, ?_⟩
  rcases hc with ⟨rfl, rfl⟩ | ⟨hne, rfl⟩
  · simp [capture, List.lookup]
  · simp [capture, List.lookup, hne]

theorem renderToString_log (env : Env) (req : Request) (res : Res) (w : World) :
    (renderToString env req res w).2 = { w with renderLog := mkContext env req :: w.renderLog } := by
  unfold renderToString
  cases env.renderer (mkContext env req) <;> rfl

theorem render_microCache (env : Env) (req : Request) (res : Res) (w : World)
    (next : Res → World → Res × World) :
    (render env req res w next).2.microCache = w.microCache := by
  unfold render
  split
  · split
    · rfl
    · rw [renderToString_log]
  · rw [renderToString_log]

theorem render_log (env : Env) (req : Request) (res : Res) (w : World)
    (next : Res → World → Res × World) :
    (render env req res w next).2.renderLog = w.renderLog ∨
      (render env req res w next).2.renderLog = mkContext env req :: w.renderLog := by
  unfold render
  split
  · split
    · left; rfl
    · right; rw [renderToString_log]
  · right; rw [renderToString_log]

theorem app_microCache (env : Env) (req : Request) (w : World) :
    (app env req w).2.microCache = w.microCache := by
  rw [app_eq]
  cases env.earlier req with
  | some r => rfl
  | none =>
    cases env.redirects.lookup req.path with
    | some t => rfl
    | none =>
      cases languageRegex.exec req.path with
      | some caps => exact render_microCache _ _ _ _ _
      | none => rfl

/-- C2: for a request whose path is a key of the redirect table, the router
stack (redirect routes, language route, catch-all, in registration order)
answers with exactly the HTTP 301 redirect to the mapped target built on a
fresh response: no cookie or header of `render` is present, the renderer is
not invoked and the server state is unchanged, whether or not the path matches
the language-prefix grammar.  This is the response of the application
whenever the middleware registered before the redirect routes passes the
request on. -/
theorem redirect_routes_take_precedence (env : Env) (req : Request) (w : World)
    (target : String) (h : env.redirects.lookup req.path = some target) :
    runStack (stack env) req Res.init w = (Res.init.redirect 301 target, w) ∧
      (runStack (stack env) req Res.init w).1.statusCode = 301 ∧
      (runStack (stack env) req Res.init w).1.location = some target ∧
      (runStack (stack env) req Res.init w).1.cookies = [] ∧
      (runStack (stack env) req Res.init w).2.renderLog = w.renderLog ∧
      (env.earlier req = none → app env req w = (Res.init.redirect 301 target, w)) := by
  have e : runStack (stack env) req Res.init w = (Res.init.redirect 301 target, w) := by
    rw [stack_eq, h]
  refine ⟨e, by rw [e]; rfl, by rw [e]; exact location_redirect _ _ _, by rw [e]; rfl,
    by rw [e], ?_⟩
  intro he
  rw [app_eq, he, h]

/-- Witness for C2: `/en/old` matches the language-prefix grammar and is a
key of the redirect table; it is answered with 301 to `/en/new`. -/
theorem redirect_routes_take_precedence_witness :
    languageRegex.test (sampleReq "/en/old" none false).path = true ∧
    sampleEnv.redirects.lookup (sampleReq "/en/old" none false).path = some "/en/new" ∧
    (app sampleEnv (sampleReq "/en/old" none false) emptyWorld).1.statusCode = 301 ∧
    (runStack (stack sampleEnv) (sampleReq "/en/old" none false) Res.init emptyWorld
        = (Res.init.redirect 301 "/en/new", emptyWorld) ∧
      (runStack (stack sampleEnv) (sampleReq "/en/old" none false) Res.init
        emptyWorld).1.statusCode = 301 ∧
      (runStack (stack sampleEnv) (sampleReq "/en/old" none false) Res.init
        emptyWorld).1.location = some "/en/new" ∧
      (runStack (stack sampleEnv) (sampleReq "/en/old" none false) Res.init
        emptyWorld).1.cookies = [] ∧
      (runStack (stack sampleEnv) (sampleReq "/en/old" none false) Res.init
        emptyWorld).2.renderLog = emptyWorld.renderLog ∧
      (sampleEnv.earlier (sampleReq "/en/old" none false) = none →
        app sampleEnv (sampleReq "/en/old" none false) emptyWorld
          = (Res.init.redirect 301 "/en/new", emptyWorld))) :=
  ⟨by decide, by decide, by decide,
    redirect_routes_take_precedence sampleEnv (sampleReq "/en/old" none false) emptyWorld
      "/en/new" (by decide)⟩

/-- C7: `handleError` gives exactly one of three responses, by precedence: an
error with a truthy `url` is redirected to it; otherwise an error whose `code`
is 404 gets HTTP 404 with the body `404 | Page Not Found`; otherwise the error
goes to the diagnostic page handler.  An error with both a `url` and the code
404 is redirected, not answered with 404. -/
theorem handleError_precedence (res : Res) (err : RenderError) :
    ((∃ u, err.url = some u ∧ u ≠ "" ∧ handleError res err = res.redirect 302 u ∧
        (handleError res err).location = some u ∧ (handleError res err).statusCode = 302) ∨
      (truthy err.url = false ∧ err.code = some 404 ∧
        handleError res err = (res.status 404).send (.text "404 | Page Not Found") ∧
        (handleError res err).statusCode = 404 ∧
        (handleError res err).body = .text "404 | Page Not Found") ∨
      (truthy err.url = false ∧ err.code ≠ some 404 ∧
        handleError res err = ouchHandleException err res ∧
        (handleError res err).body = .diagnostic err)) ∧
    (∀ u, u ≠ "" →
      handleError res ⟨some u, some 404⟩ = res.redirect 302 u ∧
      (handleError res ⟨some u, some 404⟩).statusCode ≠ 404) := by
  constructor
  · obtain ⟨url, code⟩ := err
    by_cases hu : truthy url = true
    · left
      cases url with
      | none => simp [truthy] at hu
      | some u =>
        have hne : u ≠ "" := by simpa [truthy] using hu
        have e : handleError res ⟨some u, code⟩ = res.redirect 302 u := by
          simp [handleError, truthy, hne, jsString]
        exact ⟨u, rfl, hne, e, by rw [e]; exact location_redirect _ _ _, by rw [e]; rfl⟩
    · right
      have hu2 : truthy url = false := by simpa using hu
      by_cases hc : code = some 404
      · left
        have e : handleError res ⟨url, code⟩
            = (res.status 404).send (.text "404 | Page Not Found") := by
          simp [handleError, hu2, hc]
        exact ⟨hu2, hc, e, by rw [e]; rfl, by rw [e]; rfl⟩
      · right
        have e : handleError res ⟨url, code⟩ = ouchHandleException ⟨url, code⟩ res := by
          simp [handleError, hu2, hc]
        exact ⟨hu2, hc, e, by rw [e]; rfl⟩
  · intro u hne
    have e : handleError res ⟨some u, some 404⟩ = res.redirect 302 u := by
      simp [handleError, truthy, hne, jsString]
    rw [e]
    exact ⟨rfl, by simp [Res.redirect, Res.send, Res.status]⟩

/-- C8 (as amended): the mounts `/` and `/dist` are served with max-age
2592000000 ms (30 days) in production and 0 in development; the mounts
`/releases` and `/themes` are served with max-age 0 in both modes. -/
theorem static_mounts_maxAge :
    (staticMounts true).map (fun m => (m.1, m.2.maxAge))
      = [("/", 2592000000), ("/dist", 2592000000), ("/releases", 0), ("/themes", 0)] ∧
    (staticMounts false).map (fun m => (m.1, m.2.maxAge))
      = [("/", 0), ("/dist", 0), ("/releases", 0), ("/themes", 0)] ∧
    (∀ (isProd : Bool) (path : String) (cache : Option Bool),
      (serve isProd path cache).maxAge
        = if cache = some true ∧ isProd = true then 2592000000 else 0) := by
  refine ⟨by decide, by decide, ?_⟩
  intro isProd path cache
  rcases cache with _ | _ | _ <;> cases isProd <;> simp [serve]

/-- Counterexample to C8 as stated: in production mode the mount `/releases`
is served with max-age 0, not 2592000000. -/
theorem static_mounts_not_all_cached :
    ((staticMounts true).lookup "/releases").map (fun o => o.maxAge) = some 0 ∧
    ¬ (∀ m ∈ staticMounts true, m.2.maxAge = 2592000000) := by
  decide

/-- C5 (evaluation at the failing input): with micro-caching enabled, the
request for `/en/guide` has the truthy cache key `/en/guide`, yet after
serving it twice in a row the micro-cache is still empty and the renderer has
been invoked twice; in general no request ever changes the micro-cache,
because `render` is registered before `cacheMiddleware` and never calls
`next`. -/
theorem language_route_never_reaches_microcache :
    sampleEnv.useMicroCache = true ∧
    (languageRegex.exec "/en/guide").map
      (fun caps => cacheKey sampleEnv (withParams (sampleReq "/en/guide" none false) caps))
      = some (some "/en/guide") ∧
    (serveTwice sampleEnv (sampleReq "/en/guide" none false) emptyWorld).1.2.microCache = [] ∧
    (serveTwice sampleEnv (sampleReq "/en/guide" none false) emptyWorld).2.2.microCache = [] ∧
    (serveTwice sampleEnv (sampleReq "/en/guide" none false) emptyWorld).1.2.renderLog.length
      = 1 ∧
    (serveTwice sampleEnv (sampleReq "/en/guide" none false) emptyWorld).2.2.renderLog.length
      = 2 ∧
    (∀ (env : Env) (req : Request) (w : World), (app env req w).2.microCache = w.microCache) := by
  refine ⟨by decide, by decide, by decide, by decide, by decide, by decide, ?_⟩
  exact app_microCache

/-- C6 (as amended): the renderer is invoked only for a request whose path
matches the language-prefix grammar, that is, begins with a syntactically
valid language code `L` (in the catalog or not); the context it receives has
`lang = L`. -/
theorem renderer_only_for_grammar_paths (env : Env) (req : Request) (w : World)
    (h : (app env req w).2.renderLog ≠ w.renderLog) :
    ∃ L t caps, req.path.toList = '/' :: (L ++ t) ∧ LangCode L ∧ Remainder t ∧
      languageRegex.exec req.path = some caps ∧
      (app env req w).2.renderLog = mkContext env (withParams req caps) :: w.renderLog ∧
      (mkContext env (withParams req caps)).lang = some (String.mk L) := by
  rw [app_eq] at h ⊢
  cases he : env.earlier req with
  | some r => rw [he] at h; exact absurd rfl h
  | none =>
    rw [he] at h
    cases hl : env.redirects.lookup req.path with
    | some t => rw [hl] at h; exact absurd rfl h
    | none =>
      rw [hl] at h
      cases hx : languageRegex.exec req.path with
      | none => rw [hx] at h; exact absurd rfl h
      | some caps =>
        rw [hx] at h
        obtain ⟨L, t, hs, hL, ht, h1, -⟩ := exec_captures _ _ hx
        refine ⟨L, t, caps, hs, hL, ht, rfl, ?_, ?_⟩
        · rcases render_log env (withParams req caps) Res.init w (fun r1 w1 => (r1, w1)) with
            e | e
          · exact absurd e h
          · exact e
        · simp [mkContext, withParams, h1]

/-- Witness for C6: the request for `/xx/foo` reaches the renderer. -/
theorem renderer_only_for_grammar_paths_witness :
    (app sampleEnv (sampleReq "/xx/foo" none false) emptyWorld).2.renderLog
      ≠ emptyWorld.renderLog ∧
    ∃ L t caps, (sampleReq "/xx/foo" none false).path.toList = '/' :: (L ++ t) ∧ LangCode L ∧
      Remainder t ∧ languageRegex.exec (sampleReq "/xx/foo" none false).path = some caps ∧
      (app sampleEnv (sampleReq "/xx/foo" none false) emptyWorld).2.renderLog
        = mkContext sampleEnv (withParams (sampleReq "/xx/foo" none false) caps)
            :: emptyWorld.renderLog ∧
      (mkContext sampleEnv (withParams (sampleReq "/xx/foo" none false) caps)).lang
        = some (String.mk L) :=
  ⟨by decide,
    renderer_only_for_grammar_paths sampleEnv (sampleReq "/xx/foo" none false) emptyWorld
      (by decide)⟩

/-- Counterexample to C6 as stated: with the catalog `en`, `fr`, the request
for `/xx/foo` reaches the renderer with `lang = xx`, although `xx` is not in
the catalog. -/
theorem renderer_reached_outside_catalog :
    sampleEnv.availableLanguages = ["en", "fr"] ∧
    sampleEnv.availableLanguages.contains "xx" = false ∧
    (app sampleEnv (sampleReq "/xx/foo" none false) emptyWorld).1.statusCode = 200 ∧
    (app sampleEnv (sampleReq "/xx/foo" none false) emptyWorld).2.renderLog.map (fun c => c.lang)
      = [some "xx"] := by
  decide

/-- C10 (evaluation at the failing input): `hreflangs` is the concatenation,
in catalog order, of one link per catalog language whose `href` ends with the
string conversion of `req.params[1]`; for the path `/en` capture group 2 is
undefined and every `href` ends with the text `undefined`. -/
theorem hreflangs_without_remainder :
    (∀ (langs : List String) (hostname : String) (params : Option String × Option String),
      hreflangs langs hostname params = String.join (langs.map (fun lang =>
        "<link rel=\"alternate\" hreflang=\"" ++ lang ++ "\" href=\"https://" ++ hostname
          ++ "/" ++ lang ++ jsString params.2 ++ "\" />"))) ∧
    (languageRegex.exec "/en").map (fun caps => capture caps 2) = some none ∧
    (app sampleEnv (sampleReq "/en" none false) emptyWorld).2.renderLog.map
        (fun c => c.hreflangs)
      = ["<link rel=\"alternate\" hreflang=\"en\" href=\"https://example.com/enundefined\" />"
          ++ "<link rel=\"alternate\" hreflang=\"fr\" href=\"https://example.com/frundefined\" />"] := by
  refine ⟨?_, by decide, by decide⟩
  intro langs hostname params
  simp [hreflangs, String.join, List.foldl_map]

end Server
